import Mathlib

/-!
# Verification of the playback sequencer in `src/App.tsx`

Shallow embedding of the playback-queue and playlist-sequencing core of the
music player: the state held by the `App` component (library, manual queue,
playback history, skipped-track set, current song, shuffle/repeat flags,
shuffled queue, playing flag) and the operations `playNext`, `playPrevious`,
`toggleShuffle`, `toggleRepeat`, `handleAddToQueue`, `getUpNext`,
`handleRemoveFromUpNext`, `handlePlayFromLibrary` and `refreshLibrary`.

Tracks are modelled by their identifier and display fields; the skipped-track
`Set<string>` is modelled as a duplicate-free list of identifiers with the
same membership semantics; JavaScript `findIndex` is modelled as an
`Int`-valued function returning `-1` on failure, exactly as in the source.
The `Math.random()` draws of the Fisher-Yates shuffle are modelled by an
oracle `rand : Nat → Nat`; at loop index `i` the source draws
`Math.floor(Math.random() * (i + 1))`, an arbitrary value in `[0, i]`,
modelled as `rand i % (i + 1)`.
-/

/-- A track (`Song` in `types.ts`): stable identifier plus display fields. -/
structure Song where
  id : String
  name : String
  artist : String
deriving DecidableEq, Repr

/-- The sequencer-relevant state cells of the `App` component. -/
structure AppState where
  library : List Song
  queue : List Song
  history : List Song
  skippedTracks : List String
  currentSong : Option Song
  isShuffled : Bool
  isRepeat : Bool
  shuffledQueue : List Song
  isPlaying : Bool
deriving DecidableEq, Repr

/-- Initial component state: everything empty, nothing playing. -/
def initialState : AppState :=
  { library := [], queue := [], history := [], skippedTracks := [],
    currentSong := none, isShuffled := false, isRepeat := false,
    shuffledQueue := [], isPlaying := false }

/-- JavaScript `Array.prototype.findIndex`: index of the first element
satisfying the predicate, or `-1` when there is none. -/
def findIndex (p : Song → Bool) : List Song → Int
  | [] => -1
  | t :: rest =>
    if p t then 0
    else if findIndex p rest = -1 then -1 else findIndex p rest + 1

/-- JavaScript `Set.prototype.add` on the skipped-track set: membership-based,
adding an already-present identifier changes nothing. -/
def addSkip (skipped : List String) (sid : String) : List String :=
  if skipped.contains sid then skipped else skipped ++ [sid]

/-- The `autoQueue` computation shared verbatim by `toggleShuffle` and
`getUpNext`: `const idx = library.findIndex(...)`, then
`if (idx !== -1 && idx < library.length - 1) autoQueue = library.slice(idx + 1)`. -/
def sliceAfterIndex (sid : String) (l : List Song) : List Song :=
  if findIndex (fun t => t.id == sid) l ≠ -1 ∧
      findIndex (fun t => t.id == sid) l < (l.length : Int) - 1 then
    l.drop (findIndex (fun t => t.id == sid) l + 1).toNat
  else []

/-- Remaining natural-order library tracks, guarded as in the source by
`if (currentSong && library.length > 0)`. -/
def remainingLibrary (currentSong : Option Song) (library : List Song) : List Song :=
  match currentSong with
  | some c => if 0 < library.length then sliceAfterIndex c.id library else []
  | none => []

/-- `getUpNext` (the derived "Up Next" view): the shuffled queue verbatim when
shuffled, else manual queue followed by unskipped remaining library tracks. -/
def getUpNext (s : AppState) : List Song :=
  if s.isShuffled then s.shuffledQueue
  else
    s.queue ++ (remainingLibrary s.currentSong s.library).filter
      (fun t => !(s.skippedTracks.contains t.id))

/-- The destructuring swap `[a[i], a[j]] = [a[j], a[i]]` on a list. -/
def swapList (l : List Song) (i j : Nat) : List Song :=
  match l.get? i, l.get? j with
  | some a, some b => (l.set i b).set j a
  | _, _ => l

/-- The Fisher-Yates loop `for (let i = n - 1; i > 0; i--)`: the first
argument is the current loop index, the draw at index `i` is `rand i % (i+1)`. -/
def fisherYatesAux (rand : Nat → Nat) : Nat → List Song → List Song
  | 0, l => l
  | i + 1, l => fisherYatesAux rand i (swapList l (i + 1) (rand (i + 1) % (i + 2)))

/-- Fisher-Yates shuffle of a list, starting at index `length - 1`. -/
def fisherYates (rand : Nat → Nat) (l : List Song) : List Song :=
  fisherYatesAux rand (l.length - 1) l

/-- `toggleShuffle`: on→off discards the shuffled queue; off→on materializes
the shuffled queue from manual queue plus unskipped remaining library. -/
def toggleShuffle (rand : Nat → Nat) (s : AppState) : AppState :=
  if s.isShuffled then { s with isShuffled := false, shuffledQueue := [] }
  else
    { s with
      shuffledQueue := fisherYates rand
        (s.queue ++ (remainingLibrary s.currentSong s.library).filter
          (fun t => !(s.skippedTracks.contains t.id))),
      isShuffled := true }

/-- Step 1 of `playNext` and of `handlePlayFromLibrary`: push the current
song onto the history when one exists. -/
def pushHistory (s : AppState) : AppState :=
  match s.currentSong with
  | some c => { s with history := s.history ++ [c] }
  | none => s

/-- The `while (nextIndex < library.length && skippedTracks.has(...)) nextIndex++`
loop of `playNext`, scanning the suffix of the library from index `i`. -/
def advanceIdx (skipped : List String) : List Song → Nat → Nat
  | [], i => i
  | t :: rest, i => if skipped.contains t.id then advanceIdx skipped rest (i + 1) else i

/-- The final `nextIndex` of `playNext`'s library fallback, starting from `i`. -/
def nextUnskippedIdx (library : List Song) (skipped : List String) (i : Nat) : Nat :=
  advanceIdx skipped (library.drop i) i

/-- `currentIndex + 1` of `playNext`'s library fallback: `currentIndex` is
`-1` when there is no current song or `findIndex` misses, so the start is `0`. -/
def nextStartIndex (s : AppState) : Nat :=
  ((match s.currentSong with
    | some c => findIndex (fun t => t.id == c.id) s.library
    | none => -1) + 1).toNat

/-- Steps 2-4 of `playNext`, operating on the state `s1` that already has the
previous current song pushed onto the history: shuffled mode pops the
shuffled queue head and reconciles the manual queue; ordered mode pops the
manual queue head or advances through the library past skipped tracks,
stopping (`setIsPlaying(false)`) at the end of the library. -/
def playNextAfterHistory (s1 : AppState) : AppState :=
  if s1.isShuffled then
    match s1.shuffledQueue with
    | nextSong :: rest =>
      { s1 with shuffledQueue := rest, currentSong := some nextSong, isPlaying := true,
                queue := s1.queue.filter (fun t => !(t.id == nextSong.id)) }
    | [] => { s1 with isPlaying := false }
  else
    match s1.queue with
    | nextSong :: rest =>
      { s1 with queue := rest, currentSong := some nextSong, isPlaying := true }
    | [] =>
      if s1.library.length = 0 then { s1 with isPlaying := false }
      else
        if h : nextUnskippedIdx s1.library s1.skippedTracks (nextStartIndex s1) <
            s1.library.length then
          { s1 with
            currentSong := some (s1.library.get
              ⟨nextUnskippedIdx s1.library s1.skippedTracks (nextStartIndex s1), h⟩),
            isPlaying := true }
        else { s1 with isPlaying := false }

/-- `playNext` from `src/App.tsx`: early return when no current song and
empty library; push the current song onto the history; then advance. -/
def playNext (s : AppState) : AppState :=
  if s.currentSong = none ∧ s.library = [] then s
  else playNextAfterHistory (pushHistory s)

/-- `playPrevious` from `src/App.tsx`; `ct` is the elapsed playback time in
seconds reported by the transport adapter (the `currentTime` state cell). A
restart of the audio element alone (`currentTime = 0`) is no sequencer-state
change, so those branches return the state unchanged. -/
def playPrevious (ct : ℚ) (s : AppState) : AppState :=
  match s.currentSong with
  | none => s
  | some c =>
    if ct > 3 then s
    else
      match s.history.getLast? with
      | some prevSong =>
        { s with history := s.history.dropLast, currentSong := some prevSong,
                 isPlaying := true }
      | none =>
        if 0 < s.library.length then
          if findIndex (fun t => t.id == c.id) s.library > 0 then
            match s.library.get? (findIndex (fun t => t.id == c.id) s.library - 1).toNat with
            | some prevTrack => { s with currentSong := some prevTrack, isPlaying := true }
            | none => s
          else s
        else s

/-- `handleAddToQueue`: append to the manual queue tail; while shuffled also
append to the shuffled queue tail. -/
def handleAddToQueue (song : Song) (s : AppState) : AppState :=
  if s.isShuffled then
    { s with queue := s.queue ++ [song], shuffledQueue := s.shuffledQueue ++ [song] }
  else { s with queue := s.queue ++ [song] }

/-- JavaScript `arr.filter((_, i) => i !== index)` with running index `i`. -/
def removeAtIndexAux (idx : Int) : Int → List Song → List Song
  | _, [] => []
  | i, x :: xs =>
    if i = idx then removeAtIndexAux idx (i + 1) xs
    else x :: removeAtIndexAux idx (i + 1) xs

/-- `arr.filter((_, i) => i !== index)`, indices starting at `0`. -/
def removeAtIndex (l : List Song) (idx : Int) : List Song :=
  removeAtIndexAux idx 0 l

/-- `handleRemoveFromUpNext(index)`: while shuffled, drop that index from the
shuffled queue; else drop a manual-queue entry when the index falls in it,
otherwise resolve `upNext[index]` and add its identifier to the skipped set. -/
def handleRemoveFromUpNext (idx : Int) (s : AppState) : AppState :=
  if s.isShuffled then { s with shuffledQueue := removeAtIndex s.shuffledQueue idx }
  else if idx < (s.queue.length : Int) then { s with queue := removeAtIndex s.queue idx }
  else
    match (getUpNext s).get? idx.toNat with
    | some songToSkip => { s with skippedTracks := addSkip s.skippedTracks songToSkip.id }
    | none => s

/-- `handlePlayFromLibrary` (explicit track selection): push history, set the
selected song as current, clear the skipped set, force shuffle off. -/
def handlePlayFromLibrary (song : Song) (s : AppState) : AppState :=
  let s1 := pushHistory s
  { s1 with currentSong := some song, isPlaying := true, skippedTracks := [],
            isShuffled := false, shuffledQueue := [] }

/-- `refreshLibrary`: wholesale replacement of the library by the fetched
tracks (`setLibrary(remoteTracks)`); no other state cell is touched. -/
def refreshLibrary (tracks : List Song) (s : AppState) : AppState :=
  { s with library := tracks }

/-- `toggleRepeat`: flips the repeat flag only. -/
def toggleRepeat (s : AppState) : AppState :=
  { s with isRepeat := !s.isRepeat }

/-- The exposed sequencer operations. `prev` carries the elapsed playback
time, `shuffleTog` the random oracle, `refresh` the fetched track list. -/
inductive Op where
  | next : Op
  | prev : ℚ → Op
  | add : Song → Op
  | removeUpNext : Int → Op
  | shuffleTog : (Nat → Nat) → Op
  | repeatTog : Op
  | select : Song → Op
  | refresh : List Song → Op

/-- Apply one exposed operation to the state. -/
def applyOp : Op → AppState → AppState
  | Op.next, s => playNext s
  | Op.prev ct, s => playPrevious ct s
  | Op.add song, s => handleAddToQueue song s
  | Op.removeUpNext idx, s => handleRemoveFromUpNext idx s
  | Op.shuffleTog rand, s => toggleShuffle rand s
  | Op.repeatTog, s => toggleRepeat s
  | Op.select song, s => handlePlayFromLibrary song s
  | Op.refresh tracks, s => refreshLibrary tracks s

/-- Whether an operation is the library refresh. -/
def Op.isRefresh : Op → Bool
  | Op.refresh _ => true
  | _ => false

/-- States reachable from the initial state by exposed operations. -/
inductive Reachable : AppState → Prop where
  | init : Reachable initialState
  | step {s : AppState} (hs : Reachable s) (op : Op) : Reachable (applyOp op s)

/-- Modelled from the spec's words "Library tracks strictly after Current
Track": the suffix of the library strictly after the first occurrence of the
given identifier, empty when the identifier does not occur. -/
def tracksAfter (sid : String) : List Song → List Song
  | [] => []
  | t :: rest => if t.id = sid then rest else tracksAfter sid rest

/-- Spec-worded remaining library: tracks strictly after the current track. -/
def specLibraryAfterCurrent (s : AppState) : List Song :=
  match s.currentSong with
  | some c => tracksAfter c.id s.library
  | none => []

/-- Spec-worded `computeUpNext()`: the shuffled queue verbatim when shuffled,
else manual queue followed by the library tracks strictly after the current
track excluding the skipped set. -/
def computeUpNextSpec (s : AppState) : List Song :=
  if s.isShuffled then s.shuffledQueue
  else
    s.queue ++ (specLibraryAfterCurrent s).filter (fun t => !(s.skippedTracks.contains t.id))

/-- The skipped set contains only identifiers of current library tracks. -/
def skippedOK (s : AppState) : Prop :=
  ∀ sid ∈ s.skippedTracks, sid ∈ s.library.map Song.id

instance (s : AppState) : Decidable (skippedOK s) :=
  List.decidableBAll _ s.skippedTracks

/-- `n` successive `playNext` calls. -/
def nextsN : Nat → AppState → AppState
  | 0, s => s
  | n + 1, s => nextsN n (playNext s)

/-- Successive `playPrevious` calls, one per listed elapsed time. -/
def prevsList : List ℚ → AppState → AppState
  | [], s => s
  | ct :: rest, s => prevsList rest (playPrevious ct s)

/-- Concrete tracks for witnesses and counterexamples. -/
def songA : Song := ⟨"a", "Song A", "Artist 1"⟩

def songB : Song := ⟨"b", "Song B", "Artist 1"⟩

def songX : Song := ⟨"x", "Song X", "Artist 2"⟩

def songY : Song := ⟨"y", "Song Y", "Artist 2"⟩

def songZ : Song := ⟨"z", "Song Z", "Artist 2"⟩

def songH : Song := ⟨"h", "Song H", "Artist 3"⟩

/-- A concrete random oracle (always draws index 0). -/
def wRand : Nat → Nat := fun _ => 0

/-- Reachable state with a non-empty manual queue but no current song and an
empty library: `addToQueue(songA)` from the initial state. -/
def exC1 : AppState := applyOp (Op.add songA) initialState

/-- Reachable state with shuffle on and a non-empty shuffled queue but no
current song and an empty library: queue `songA`, then toggle shuffle on. -/
def exC2 : AppState := applyOp (Op.shuffleTog wRand) (applyOp (Op.add songA) initialState)

/-- A non-shuffled state with a non-empty history but no current song. -/
def exC7 : AppState := { initialState with history := [songH], library := [songX] }

/-- Reachable state whose skipped set holds an identifier absent from the
library: load `[songX, songY]`, select `songX`, remove up-next index 0
(skipping `songY`), then refresh the library to `[songX]`. -/
def badC9 : AppState :=
  applyOp (Op.refresh [songX])
    (applyOp (Op.removeUpNext 0)
      (applyOp (Op.select songX)
        (applyOp (Op.refresh [songX, songY]) initialState)))

/-- Witness state for C1: ordered mode, two queued tracks, a current song. -/
def wState1 : AppState :=
  { initialState with queue := [songA, songB], library := [songX], currentSong := some songX }

/-- Witness state for C2: shuffled mode with a materialized shuffled queue. -/
def wState2 : AppState :=
  { initialState with
      isShuffled := true, shuffledQueue := [songA, songB],
      queue := [songB, songA], library := [songX], currentSong := some songX }

/-- Witness state for C3: ordered mode with a queue and remaining library. -/
def wState3 : AppState :=
  { initialState with
      queue := [songA, songB], library := [songX, songY], currentSong := some songX }

/-- Witness state for C5, the spec's removal-by-index scenario. -/
def wState5 : AppState :=
  { initialState with
      queue := [songA], library := [songX, songY, songZ], currentSong := some songX }

/-- Witness state for C6, the spec's end-of-library scenario. -/
def wState6 : AppState :=
  { initialState with library := [songX, songY], currentSong := some songY }

/-- Witness state for C7: current song at the head of a two-track library. -/
def wState7 : AppState :=
  { initialState with library := [songX, songY], currentSong := some songX }

/-! ## General lemmas about the auxiliary list operations -/

lemma removeAtIndexAux_high (idx : Int) :
    ∀ (l : List Song) (i : Int), idx < i → removeAtIndexAux idx i l = l := by
  intro l
  induction l with
  | nil => intro i _; rfl
  | cons x xs ih =>
    intro i hi
    unfold removeAtIndexAux
    rw [if_neg (by omega), ih (i + 1) (by omega)]

lemma removeAtIndexAux_eraseIdx (idx : Int) :
    ∀ (l : List Song) (i : Int), i ≤ idx →
      removeAtIndexAux idx i l = l.eraseIdx (idx - i).toNat := by
  intro l
  induction l with
  | nil => intro i _; simp [removeAtIndexAux]
  | cons x xs ih =>
    intro i hi
    unfold removeAtIndexAux
    by_cases h : i = idx
    · rw [if_pos h, removeAtIndexAux_high idx xs (i + 1) (by omega)]
      have h0 : (idx - i).toNat = 0 := by omega
      rw [h0]
      rfl
    · rw [if_neg h, ih (i + 1) (by omega)]
      have h2 : (idx - i).toNat = (idx - (i + 1)).toNat + 1 := by omega
      rw [h2]
      rfl

lemma removeAtIndex_eraseIdx (l : List Song) (idx : Int) (h : 0 ≤ idx) :
    removeAtIndex l idx = l.eraseIdx idx.toNat := by
  rw [removeAtIndex, removeAtIndexAux_eraseIdx idx l 0 h]
  congr 1
  omega

lemma removeAtIndex_neg (l : List Song) (idx : Int) (h : idx < 0) :
    removeAtIndex l idx = l :=
  removeAtIndexAux_high idx l 0 h

lemma removeAtIndex_high (l : List Song) (idx : Int) (h : (l.length : Int) ≤ idx) :
    removeAtIndex l idx = l := by
  rw [removeAtIndex_eraseIdx l idx (by omega)]
  exact List.eraseIdx_of_length_le (by omega)

lemma findIndex_ge (p : Song → Bool) : ∀ l, -1 ≤ findIndex p l := by
  intro l
  induction l with
  | nil => simp [findIndex]
  | cons x xs ih =>
    unfold findIndex
    by_cases h : p x
    · rw [if_pos h]; omega
    · rw [if_neg h]
      by_cases h2 : findIndex p xs = -1
      · rw [if_pos h2]
      · rw [if_neg h2]; omega

lemma sliceAfterIndex_eq_tracksAfter (sid : String) :
    ∀ l, sliceAfterIndex sid l = tracksAfter sid l := by
  intro l
  induction l with
  | nil => rfl
  | cons x xs ih =>
    have hL : ((x :: xs).length : Int) - 1 = (xs.length : Int) := by
      simp only [List.length_cons]
      push_cast
      ring
    by_cases hx : x.id = sid
    · have hfx : findIndex (fun t => t.id == sid) (x :: xs) = 0 := by
        simp only [findIndex]
        rw [if_pos (beq_iff_eq.mpr hx)]
      have ht : tracksAfter sid (x :: xs) = xs := by
        simp only [tracksAfter]
        rw [if_pos hx]
      rw [ht]
      unfold sliceAfterIndex
      rw [hfx, hL]
      by_cases hxs : xs = []
      · subst hxs
        norm_num
      · have hpos : (0 : Int) < (xs.length : Int) := by
          have := List.length_pos.mpr hxs
          omega
        rw [if_pos ⟨by norm_num, hpos⟩]
        rfl
    · have hbeq : ¬ ((x.id == sid) = true) := fun h => hx (beq_iff_eq.mp h)
      have ht : tracksAfter sid (x :: xs) = tracksAfter sid xs := by
        simp only [tracksAfter]
        rw [if_neg hx]
      rw [ht, ← ih]
      by_cases h1 : findIndex (fun t => t.id == sid) xs = -1
      · have hfx : findIndex (fun t => t.id == sid) (x :: xs) = -1 := by
          simp only [findIndex]
          rw [if_neg hbeq, if_pos h1]
        unfold sliceAfterIndex
        rw [hfx, h1]
        norm_num
      · have h0 : 0 ≤ findIndex (fun t => t.id == sid) xs := by
          have := findIndex_ge (fun t => t.id == sid) xs
          omega
        have hfx : findIndex (fun t => t.id == sid) (x :: xs) =
            findIndex (fun t => t.id == sid) xs + 1 := by
          simp only [findIndex]
          rw [if_neg hbeq, if_neg h1]
        unfold sliceAfterIndex
        rw [hfx, hL]
        by_cases h2 : findIndex (fun t => t.id == sid) xs < (xs.length : Int) - 1
        · rw [if_pos ⟨by omega, by omega⟩, if_pos ⟨h1, h2⟩]
          have h3 : (findIndex (fun t => t.id == sid) xs + 1 + 1).toNat =
              (findIndex (fun t => t.id == sid) xs + 1).toNat + 1 := by omega
          rw [h3]
          rfl
        · rw [if_neg (by intro hcon; exact absurd hcon.2 (by omega)),
            if_neg (by intro hcon; exact h2 hcon.2)]

lemma remainingLibrary_eq_spec (s : AppState) :
    remainingLibrary s.currentSong s.library = specLibraryAfterCurrent s := by
  unfold specLibraryAfterCurrent
  cases hc : s.currentSong with
  | none => rfl
  | some c =>
    show (if 0 < s.library.length then sliceAfterIndex c.id s.library else []) =
      tracksAfter c.id s.library
    by_cases hl : 0 < s.library.length
    · rw [if_pos hl, sliceAfterIndex_eq_tracksAfter]
    · rw [if_neg hl]
      have hnil : s.library = [] := by
        cases hE : s.library with
        | nil => rfl
        | cons a as => rw [hE] at hl; simp at hl
      rw [hnil]
      rfl

/-! ## Claim C4 -/

/-- Claim C4: `getUpNext` (the code's `computeUpNext()`) is a pure function of
the state — in this embedding it has type `AppState → List Song` and can
mutate nothing — and it returns the shuffled queue verbatim when shuffle is
on, and otherwise the manual queue followed by the library tracks strictly
after the current track, excluding tracks whose identifier is skipped. -/
theorem getUpNext_eq_computeUpNextSpec (s : AppState) : getUpNext s = computeUpNextSpec s := by
  unfold getUpNext computeUpNextSpec
  rw [remainingLibrary_eq_spec]

/-! ## Claim C8 -/

/-- Claim C8: with no current track and an empty library, both `playNext` and
`playPrevious` leave the entire state unchanged (and, being total functions,
raise no error). -/
theorem playNext_playPrevious_noop (s : AppState) (ct : ℚ)
    (hc : s.currentSong = none) (hl : s.library = []) :
    playNext s = s ∧ playPrevious ct s = s := by
  constructor
  · unfold playNext
    rw [if_pos ⟨hc, hl⟩]
  · unfold playPrevious
    rw [hc]

/-- Witness for C8 at the initial state with elapsed time 2 seconds. -/
theorem playNext_playPrevious_noop_witness :
    playNext initialState = initialState ∧ playPrevious 2 initialState = initialState :=
  playNext_playPrevious_noop initialState 2 rfl rfl

/-! ## Claim C10 -/

/-- Claim C10: `handleRemoveFromUpNext` with an out-of-range index (negative,
or at least the length of the up-next view) leaves the whole state unchanged. -/
theorem removeFromUpNext_outOfRange (s : AppState) (idx : Int)
    (h : idx < 0 ∨ ((getUpNext s).length : Int) ≤ idx) :
    handleRemoveFromUpNext idx s = s := by
  unfold handleRemoveFromUpNext
  by_cases hsh : s.isShuffled
  · rw [if_pos hsh]
    have hup : getUpNext s = s.shuffledQueue := by unfold getUpNext; rw [if_pos hsh]
    have he : removeAtIndex s.shuffledQueue idx = s.shuffledQueue := by
      rcases h with h | h
      · exact removeAtIndex_neg _ _ h
      · rw [hup] at h
        exact removeAtIndex_high _ _ h
    rw [he]
  · rw [if_neg hsh]
    have hup : getUpNext s = s.queue ++ (remainingLibrary s.currentSong s.library).filter
        (fun t => !(s.skippedTracks.contains t.id)) := by
      unfold getUpNext; rw [if_neg hsh]
    rcases h with h | h
    · rw [if_pos (by omega : idx < (s.queue.length : Int))]
      rw [removeAtIndex_neg _ _ h]
    · have hqlen : s.queue.length ≤ (getUpNext s).length := by rw [hup]; simp
      rw [if_neg (by omega : ¬ idx < (s.queue.length : Int))]
      have hnone : (getUpNext s).get? idx.toNat = none := List.get?_eq_none.mpr (by omega)
      rw [hnone]

/-- Witness for C10: index 5 is out of range at the initial state. -/
theorem removeFromUpNext_outOfRange_witness :
    handleRemoveFromUpNext 5 initialState = initialState :=
  removeFromUpNext_outOfRange initialState 5 (Or.inr (by decide))

/-! ## Lemmas about `pushHistory` -/

lemma pushHistory_library (s : AppState) : (pushHistory s).library = s.library := by
  unfold pushHistory; cases s.currentSong <;> rfl

lemma pushHistory_queue (s : AppState) : (pushHistory s).queue = s.queue := by
  unfold pushHistory; cases s.currentSong <;> rfl

lemma pushHistory_skippedTracks (s : AppState) :
    (pushHistory s).skippedTracks = s.skippedTracks := by
  unfold pushHistory; cases s.currentSong <;> rfl

lemma pushHistory_currentSong (s : AppState) : (pushHistory s).currentSong = s.currentSong := by
  unfold pushHistory
  cases hc : s.currentSong
  · exact hc
  · rfl

lemma pushHistory_isShuffled (s : AppState) : (pushHistory s).isShuffled = s.isShuffled := by
  unfold pushHistory; cases s.currentSong <;> rfl

lemma pushHistory_shuffledQueue (s : AppState) :
    (pushHistory s).shuffledQueue = s.shuffledQueue := by
  unfold pushHistory; cases s.currentSong <;> rfl

lemma pushHistory_history_of_some (s : AppState) (c : Song) (hc : s.currentSong = some c) :
    (pushHistory s).history = s.history ++ [c] := by
  unfold pushHistory; rw [hc]

/-! ## Permutation lemmas for the Fisher-Yates shuffle -/

lemma cons_set_perm : ∀ (xs : List Song) (m : Nat) (a b : Song),
    xs.get? m = some b → List.Perm (b :: xs.set m a) (a :: xs) := by
  intro xs
  induction xs with
  | nil => intro m a b h; simp at h
  | cons y t ih =>
    intro m a b h
    cases m with
    | zero =>
      simp only [List.get?_cons_zero] at h
      injection h with h
      subst h
      rw [List.set_cons_zero]
      exact List.Perm.swap a y t
    | succ k =>
      simp only [List.get?_cons_succ] at h
      rw [List.set_cons_succ]
      exact (List.Perm.swap y b _).trans (((ih k a b h).cons y).trans (List.Perm.swap a y t))

lemma set_set_perm : ∀ (l : List Song) (i j : Nat) (a b : Song),
    l.get? i = some a → l.get? j = some b → List.Perm ((l.set i b).set j a) l := by
  intro l
  induction l with
  | nil => intro i j a b hi hj; simp at hi
  | cons x xs ih =>
    intro i j a b hi hj
    cases i with
    | zero =>
      simp only [List.get?_cons_zero] at hi
      injection hi with hi
      subst hi
      cases j with
      | zero =>
        simp only [List.get?_cons_zero] at hj
        injection hj with hj
        subst hj
        rw [List.set_cons_zero, List.set_cons_zero]
      | succ m =>
        simp only [List.get?_cons_succ] at hj
        rw [List.set_cons_zero, List.set_cons_succ]
        exact cons_set_perm xs m x b hj
    | succ k =>
      simp only [List.get?_cons_succ] at hi
      cases j with
      | zero =>
        simp only [List.get?_cons_zero] at hj
        injection hj with hj
        subst hj
        rw [List.set_cons_succ, List.set_cons_zero]
        exact cons_set_perm xs k x a hi
      | succ m =>
        simp only [List.get?_cons_succ] at hj
        rw [List.set_cons_succ, List.set_cons_succ]
        exact (ih k m a b hi hj).cons x

lemma swapList_perm (l : List Song) (i j : Nat) : List.Perm (swapList l i j) l := by
  unfold swapList
  cases hi : l.get? i with
  | none =>
    cases hj : l.get? j with
    | none => exact List.Perm.refl l
    | some b => exact List.Perm.refl l
  | some a =>
    cases hj : l.get? j with
    | none => exact List.Perm.refl l
    | some b => exact set_set_perm l i j a b hi hj

lemma fisherYatesAux_perm (rand : Nat → Nat) :
    ∀ (n : Nat) (l : List Song), List.Perm (fisherYatesAux rand n l) l := by
  intro n
  induction n with
  | zero => intro l; exact List.Perm.refl l
  | succ i ih =>
    intro l
    show List.Perm (fisherYatesAux rand i (swapList l (i + 1) (rand (i + 1) % (i + 2)))) l
    exact (ih _).trans (swapList_perm _ _ _)

lemma fisherYates_perm (rand : Nat → Nat) (l : List Song) :
    List.Perm (fisherYates rand l) l :=
  fisherYatesAux_perm rand (l.length - 1) l

/-! ## Claim C3 -/

/-- Claim C3: from a non-shuffled state, `toggleShuffle` materializes a
shuffled queue that is a permutation (same multiset, no duplicates, no
omissions) of the manual queue followed by the library tracks strictly after
the current track excluding the skipped set, for every outcome of the random
draws. -/
theorem toggleShuffle_perm (s : AppState) (rand : Nat → Nat) (hs : s.isShuffled = false) :
    List.Perm ((toggleShuffle rand s).shuffledQueue)
      (s.queue ++ (specLibraryAfterCurrent s).filter
        (fun t => !(s.skippedTracks.contains t.id))) := by
  unfold toggleShuffle
  rw [hs, if_neg Bool.false_ne_true]
  show List.Perm (fisherYates rand
      (s.queue ++ (remainingLibrary s.currentSong s.library).filter
        (fun t => !(s.skippedTracks.contains t.id)))) _
  rw [remainingLibrary_eq_spec]
  exact fisherYates_perm rand _

/-- Witness for C3 at a concrete non-shuffled state and oracle. -/
theorem toggleShuffle_perm_witness :
    List.Perm ((toggleShuffle wRand wState3).shuffledQueue)
      (wState3.queue ++ (specLibraryAfterCurrent wState3).filter
        (fun t => !(wState3.skippedTracks.contains t.id))) :=
  toggleShuffle_perm wState3 wRand rfl

/-! ## Claim C1 -/

/-- Claim C1 (amended): with shuffle off, a non-empty manual queue, and a
current track present or a non-empty library (so the early-return guard does
not fire), `playNext` sets the former queue head as current track, leaves the
queue equal to its old tail (length reduced by exactly one), and starts
playing. -/
theorem playNext_ordered_pop (s : AppState) (hd : Song) (tl : List Song)
    (hs : s.isShuffled = false) (hq : s.queue = hd :: tl)
    (hg : s.currentSong ≠ none ∨ s.library ≠ []) :
    (playNext s).currentSong = some hd ∧ (playNext s).queue = tl ∧
      (playNext s).queue.length + 1 = s.queue.length ∧ (playNext s).isPlaying = true := by
  have hguard : ¬ (s.currentSong = none ∧ s.library = []) := by
    rcases hg with h | h <;> exact fun hcon => absurd hcon (by tauto)
  unfold playNext
  rw [if_neg hguard]
  unfold playNextAfterHistory
  rw [pushHistory_isShuffled, hs, if_neg Bool.false_ne_true, pushHistory_queue, hq]
  refine ⟨rfl, rfl, ?_, rfl⟩
  show tl.length + 1 = (hd :: tl).length
  rw [List.length_cons]

/-- Claim C1 counterexample: the reachable state with manual queue `[songA]`,
no current track and an empty library satisfies the claim's hypotheses
(shuffle off, non-empty manual queue), yet `playNext` is a no-op there: the
queue head is not popped and does not become the current track. -/
theorem playNext_c1_counterexample :
    Reachable exC1 ∧ exC1.isShuffled = false ∧ exC1.queue = [songA] ∧
      playNext exC1 = exC1 ∧ (playNext exC1).currentSong ≠ some songA :=
  ⟨Reachable.step Reachable.init (Op.add songA), by decide, by decide, by decide, by decide⟩

/-- Witness for C1 (amended) at a concrete state. -/
theorem playNext_ordered_pop_witness :
    (playNext wState1).currentSong = some songA ∧ (playNext wState1).queue = [songB] ∧
      (playNext wState1).queue.length + 1 = wState1.queue.length ∧
      (playNext wState1).isPlaying = true :=
  playNext_ordered_pop wState1 songA [songB] rfl rfl (Or.inl (by decide))

/-! ## Claim C2 -/

/-- Claim C2 (amended): with shuffle on, a non-empty shuffled queue, and a
current track present or a non-empty library (so the early-return guard does
not fire), `playNext` sets the shuffled-queue head as current track, removes
it from the shuffled queue, and removes every manual-queue entry with the
same identifier. -/
theorem playNext_shuffled_pop (s : AppState) (hd : Song) (tl : List Song)
    (hs : s.isShuffled = true) (hq : s.shuffledQueue = hd :: tl)
    (hg : s.currentSong ≠ none ∨ s.library ≠ []) :
    (playNext s).currentSong = some hd ∧ (playNext s).shuffledQueue = tl ∧
      (playNext s).queue = s.queue.filter (fun t => !(t.id == hd.id)) ∧
      (playNext s).isPlaying = true := by
  have hguard : ¬ (s.currentSong = none ∧ s.library = []) := by
    rcases hg with h | h <;> exact fun hcon => absurd hcon (by tauto)
  unfold playNext
  rw [if_neg hguard]
  unfold playNextAfterHistory
  rw [pushHistory_isShuffled, hs, if_pos rfl, pushHistory_shuffledQueue, hq]
  exact ⟨rfl, rfl, by rw [pushHistory_queue], rfl⟩

/-- Claim C2 counterexample: the reachable state with shuffle on, shuffled
queue `[songA]`, no current track and an empty library satisfies the claim's
hypotheses, yet `playNext` is a no-op there: the shuffled-queue head is not
consumed and does not become the current track. -/
theorem playNext_c2_counterexample :
    Reachable exC2 ∧ exC2.isShuffled = true ∧ exC2.shuffledQueue = [songA] ∧
      playNext exC2 = exC2 ∧ (playNext exC2).currentSong ≠ some songA :=
  ⟨Reachable.step (Reachable.step Reachable.init (Op.add songA)) (Op.shuffleTog wRand),
    by decide, by decide, by decide, by decide⟩

/-- Witness for C2 (amended) at a concrete state. -/
theorem playNext_shuffled_pop_witness :
    (playNext wState2).currentSong = some songA ∧ (playNext wState2).shuffledQueue = [songB] ∧
      (playNext wState2).queue = wState2.queue.filter (fun t => !(t.id == songA.id)) ∧
      (playNext wState2).isPlaying = true :=
  playNext_shuffled_pop wState2 songA [songB] rfl rfl (Or.inl (by decide))

/-! ## Claim C5 -/

/-- Claim C5: for an in-range index, `handleRemoveFromUpNext` removes exactly
the indexed element of the shuffled queue when shuffle is on; otherwise it
removes the indexed manual-queue entry when the index falls inside the manual
queue, and else leaves manual queue and library unchanged and adds the
identifier of `getUpNext()[index]` to the skipped set. -/
theorem removeFromUpNext_inRange (s : AppState) (idx : Int) (h0 : 0 ≤ idx)
    (h1 : idx.toNat < (getUpNext s).length) :
    (s.isShuffled = true →
      handleRemoveFromUpNext idx s =
        { s with shuffledQueue := s.shuffledQueue.eraseIdx idx.toNat }) ∧
    (s.isShuffled = false → idx < (s.queue.length : Int) →
      handleRemoveFromUpNext idx s = { s with queue := s.queue.eraseIdx idx.toNat }) ∧
    (s.isShuffled = false → (s.queue.length : Int) ≤ idx →
      (handleRemoveFromUpNext idx s).queue = s.queue ∧
      (handleRemoveFromUpNext idx s).library = s.library ∧
      ∃ t, (getUpNext s).get? idx.toNat = some t ∧
        (handleRemoveFromUpNext idx s).skippedTracks = addSkip s.skippedTracks t.id) := by
  refine ⟨?_, ?_, ?_⟩
  · intro hsh
    unfold handleRemoveFromUpNext
    rw [if_pos hsh, removeAtIndex_eraseIdx _ _ h0]
  · intro hsh hlt
    unfold handleRemoveFromUpNext
    rw [hsh, if_neg Bool.false_ne_true, if_pos hlt, removeAtIndex_eraseIdx _ _ h0]
  · intro hsh hge
    unfold handleRemoveFromUpNext
    rw [hsh, if_neg Bool.false_ne_true, if_neg (by omega : ¬ idx < (s.queue.length : Int))]
    obtain ⟨t, ht⟩ : ∃ t, (getUpNext s).get? idx.toNat = some t := by
      cases hg : (getUpNext s).get? idx.toNat with
      | none => rw [List.get?_eq_none] at hg; omega
      | some t => exact ⟨t, rfl⟩
    rw [ht]
    exact ⟨rfl, rfl, t, rfl, rfl⟩

/-- Witness for C5 at the spec's removal-by-index scenario (manual queue
`[songA]`, library `[songX, songY, songZ]`, current `songX`, index 1). -/
theorem removeFromUpNext_inRange_witness :
    (wState5.isShuffled = true →
      handleRemoveFromUpNext 1 wState5 =
        { wState5 with shuffledQueue := wState5.shuffledQueue.eraseIdx (1 : Int).toNat }) ∧
    (wState5.isShuffled = false → (1 : Int) < (wState5.queue.length : Int) →
      handleRemoveFromUpNext 1 wState5 =
        { wState5 with queue := wState5.queue.eraseIdx (1 : Int).toNat }) ∧
    (wState5.isShuffled = false → (wState5.queue.length : Int) ≤ 1 →
      (handleRemoveFromUpNext 1 wState5).queue = wState5.queue ∧
      (handleRemoveFromUpNext 1 wState5).library = wState5.library ∧
      ∃ t, (getUpNext wState5).get? (1 : Int).toNat = some t ∧
        (handleRemoveFromUpNext 1 wState5).skippedTracks =
          addSkip wState5.skippedTracks t.id) :=
  removeFromUpNext_inRange wState5 1 (by decide) (by decide)

/-! ## Claim C6 -/

lemma advanceIdx_all_skipped (skipped : List String) :
    ∀ (l : List Song) (i : Nat), (∀ t ∈ l, skipped.contains t.id = true) →
      advanceIdx skipped l i = i + l.length := by
  intro l
  induction l with
  | nil => intro i _; simp [advanceIdx]
  | cons x xs ih =>
    intro i hall
    unfold advanceIdx
    rw [if_pos (hall x (List.mem_cons_self x xs))]
    rw [ih (i + 1) (fun t ht => hall t (List.mem_cons_of_mem x ht))]
    rw [List.length_cons]
    omega

lemma nextUnskippedIdx_stuck (s1 : AppState)
    (hskip : ∀ t ∈ s1.library.drop (nextStartIndex s1),
      s1.skippedTracks.contains t.id = true) :
    ¬ nextUnskippedIdx s1.library s1.skippedTracks (nextStartIndex s1) <
      s1.library.length := by
  unfold nextUnskippedIdx
  rw [advanceIdx_all_skipped _ _ _ hskip, List.length_drop]
  omega

lemma nextStartIndex_pushHistory (s : AppState) :
    nextStartIndex (pushHistory s) = nextStartIndex s := by
  unfold nextStartIndex
  rw [pushHistory_currentSong, pushHistory_library]

/-- Claim C6: with shuffle off, an empty manual queue, and every library
track strictly after the current track's position skipped, `playNext` stops
playback and leaves the current track unchanged — no wraparound. -/
theorem playNext_end_of_library (s : AppState) (c : Song)
    (hs : s.isShuffled = false) (hq : s.queue = []) (hc : s.currentSong = some c)
    (hskip : ∀ t ∈ s.library.drop (nextStartIndex s),
      s.skippedTracks.contains t.id = true) :
    (playNext s).isPlaying = false ∧ (playNext s).currentSong = some c := by
  have hguard : ¬ (s.currentSong = none ∧ s.library = []) := by
    rw [hc]
    rintro ⟨hcon, -⟩
    exact Option.noConfusion hcon
  unfold playNext
  rw [if_neg hguard]
  unfold playNextAfterHistory
  rw [pushHistory_isShuffled, hs, if_neg Bool.false_ne_true, pushHistory_queue, hq]
  by_cases hl : (pushHistory s).library.length = 0
  · rw [if_pos hl]
    refine ⟨rfl, ?_⟩
    show (pushHistory s).currentSong = some c
    rw [pushHistory_currentSong]
    exact hc
  · rw [if_neg hl]
    have hstuck : ¬ nextUnskippedIdx (pushHistory s).library (pushHistory s).skippedTracks
        (nextStartIndex (pushHistory s)) < (pushHistory s).library.length := by
      apply nextUnskippedIdx_stuck
      rw [nextStartIndex_pushHistory, pushHistory_library, pushHistory_skippedTracks]
      exact hskip
    rw [dif_neg hstuck]
    refine ⟨rfl, ?_⟩
    show (pushHistory s).currentSong = some c
    rw [pushHistory_currentSong]
    exact hc

/-- Witness for C6 at the spec's end-of-library scenario (library
`[songX, songY]`, current `songY`, empty queue, empty skipped set). -/
theorem playNext_end_of_library_witness :
    (playNext wState6).isPlaying = false ∧ (playNext wState6).currentSong = some songY :=
  playNext_end_of_library wState6 songY rfl rfl rfl (by decide)

/-! ## Claim C9 -/

lemma playNext_skippedTracks (s : AppState) :
    (playNext s).skippedTracks = s.skippedTracks := by
  unfold playNext playNextAfterHistory
  split
  · rfl
  · split
    · split <;> exact pushHistory_skippedTracks s
    · split
      · exact pushHistory_skippedTracks s
      · split
        · exact pushHistory_skippedTracks s
        · split <;> exact pushHistory_skippedTracks s

lemma playNext_library (s : AppState) : (playNext s).library = s.library := by
  unfold playNext playNextAfterHistory
  split
  · rfl
  · split
    · split <;> exact pushHistory_library s
    · split
      · exact pushHistory_library s
      · split
        · exact pushHistory_library s
        · split <;> exact pushHistory_library s

lemma playPrevious_skippedTracks (ct : ℚ) (s : AppState) :
    (playPrevious ct s).skippedTracks = s.skippedTracks := by
  unfold playPrevious
  repeat' split
  all_goals rfl

lemma playPrevious_library (ct : ℚ) (s : AppState) :
    (playPrevious ct s).library = s.library := by
  unfold playPrevious
  repeat' split
  all_goals rfl

lemma remainingLibrary_subset (cur : Option Song) (lib : List Song) :
    ∀ t ∈ remainingLibrary cur lib, t ∈ lib := by
  intro t ht
  unfold remainingLibrary at ht
  cases cur with
  | none => exact absurd ht (List.not_mem_nil t)
  | some c =>
    change t ∈ (if 0 < lib.length then sliceAfterIndex c.id lib else []) at ht
    by_cases hl : 0 < lib.length
    · rw [if_pos hl] at ht
      unfold sliceAfterIndex at ht
      by_cases hcond : findIndex (fun x => x.id == c.id) lib ≠ -1 ∧
          findIndex (fun x => x.id == c.id) lib < (lib.length : Int) - 1
      · rw [if_pos hcond] at ht
        exact List.drop_subset _ lib ht
      · rw [if_neg hcond] at ht
        exact absurd ht (List.not_mem_nil t)
    · rw [if_neg hl] at ht
      exact absurd ht (List.not_mem_nil t)

lemma upNext_get_mem_library (s : AppState) (n : Nat) (t : Song)
    (hsh : s.isShuffled = false) (hn : s.queue.length ≤ n)
    (ht : (getUpNext s).get? n = some t) : t ∈ s.library := by
  unfold getUpNext at ht
  rw [hsh, if_neg Bool.false_ne_true, List.get?_append_right hn] at ht
  exact remainingLibrary_subset _ _ t (List.mem_of_mem_filter (List.get?_mem ht))

lemma addSkip_subset (skipped : List String) (sid : String) (x : String)
    (hx : x ∈ addSkip skipped sid) : x ∈ skipped ∨ x = sid := by
  unfold addSkip at hx
  by_cases h : skipped.contains sid
  · rw [if_pos h] at hx
    exact Or.inl hx
  · rw [if_neg h] at hx
    rcases List.mem_append.mp hx with h1 | h1
    · exact Or.inl h1
    · exact Or.inr (List.mem_singleton.mp h1)

/-- Claim C9 (amended): every exposed operation other than the library
refresh preserves the invariant that the skipped set only contains
identifiers of current library tracks; in particular a removal only ever
skips a library-derived up-next entry, never a manual-queue or
shuffled-queue-only track. (Library refresh violates the invariant: see the
counterexample.) -/
theorem skippedOK_preserved (s : AppState) (op : Op)
    (hok : skippedOK s) (hop : op.isRefresh = false) :
    skippedOK (applyOp op s) := by
  cases op with
  | next =>
    show skippedOK (playNext s)
    unfold skippedOK
    rw [playNext_skippedTracks, playNext_library]
    exact hok
  | prev ct =>
    show skippedOK (playPrevious ct s)
    unfold skippedOK
    rw [playPrevious_skippedTracks, playPrevious_library]
    exact hok
  | add song =>
    show skippedOK (handleAddToQueue song s)
    unfold handleAddToQueue
    by_cases hsh : s.isShuffled
    · rw [if_pos hsh]
      exact hok
    · rw [if_neg hsh]
      exact hok
  | removeUpNext idx =>
    show skippedOK (handleRemoveFromUpNext idx s)
    unfold handleRemoveFromUpNext
    by_cases hsh : s.isShuffled
    · rw [if_pos hsh]
      exact hok
    · rw [if_neg hsh]
      by_cases hlt : idx < (s.queue.length : Int)
      · rw [if_pos hlt]
        exact hok
      · rw [if_neg hlt]
        cases hg : (getUpNext s).get? idx.toNat with
        | none => exact hok
        | some t =>
          intro sid hsid
          have hsf : s.isShuffled = false := by
            revert hsh
            cases s.isShuffled <;> simp
          have hmem : t ∈ s.library :=
            upNext_get_mem_library s idx.toNat t hsf (by omega) hg
          rcases addSkip_subset _ _ _ hsid with h1 | h1
          · exact hok sid h1
          · rw [h1]
            exact List.mem_map_of_mem Song.id hmem
  | shuffleTog rand =>
    show skippedOK (toggleShuffle rand s)
    unfold toggleShuffle
    by_cases hsh : s.isShuffled
    · rw [if_pos hsh]
      exact hok
    · rw [if_neg hsh]
      exact hok
  | repeatTog => exact hok
  | select song =>
    intro sid hsid
    exact absurd hsid (List.not_mem_nil sid)
  | refresh tracks => exact Bool.noConfusion hop

/-- Claim C9 counterexample: a state reachable by refresh to
`[songX, songY]`, selecting `songX`, removing up-next index 0 (which skips
`songY`), and refreshing to `[songX]` has `songY`'s identifier in the skipped
set although no library track carries it. -/
theorem skippedOK_c9_counterexample : Reachable badC9 ∧ ¬ skippedOK badC9 :=
  ⟨Reachable.step (Reachable.step (Reachable.step (Reachable.step Reachable.init
      (Op.refresh [songX, songY])) (Op.select songX)) (Op.removeUpNext 0))
      (Op.refresh [songX]),
    by decide⟩

/-- Witness for C9 (amended) at the initial state with `playNext`. -/
theorem skippedOK_preserved_witness : skippedOK (applyOp Op.next initialState) :=
  skippedOK_preserved initialState Op.next (by decide) rfl

/-! ## Claim C7 -/

lemma playNext_of_some (s : AppState) (c : Song) (hc : s.currentSong = some c) :
    (playNext s).history = s.history ++ [c] ∧ (∃ d, (playNext s).currentSong = some d) ∧
      (playNext s).isShuffled = s.isShuffled := by
  have hguard : ¬ (s.currentSong = none ∧ s.library = []) := by
    rw [hc]
    rintro ⟨hcon, -⟩
    exact Option.noConfusion hcon
  unfold playNext
  rw [if_neg hguard]
  unfold playNextAfterHistory
  split
  · split
    · exact ⟨pushHistory_history_of_some s c hc, ⟨_, rfl⟩, pushHistory_isShuffled s⟩
    · refine ⟨pushHistory_history_of_some s c hc, ⟨c, ?_⟩, pushHistory_isShuffled s⟩
      show (pushHistory s).currentSong = some c
      rw [pushHistory_currentSong]
      exact hc
  · split
    · exact ⟨pushHistory_history_of_some s c hc, ⟨_, rfl⟩, pushHistory_isShuffled s⟩
    · split
      · refine ⟨pushHistory_history_of_some s c hc, ⟨c, ?_⟩, pushHistory_isShuffled s⟩
        show (pushHistory s).currentSong = some c
        rw [pushHistory_currentSong]
        exact hc
      · split
        · exact ⟨pushHistory_history_of_some s c hc, ⟨_, rfl⟩, pushHistory_isShuffled s⟩
        · refine ⟨pushHistory_history_of_some s c hc, ⟨c, ?_⟩, pushHistory_isShuffled s⟩
          show (pushHistory s).currentSong = some c
          rw [pushHistory_currentSong]
          exact hc

lemma nextsN_spec : ∀ (n : Nat) (s : AppState) (c : Song),
    s.isShuffled = false → s.currentSong = some c →
    ∃ pushed : List Song,
      (nextsN n s).history = s.history ++ pushed ∧ pushed.length = n ∧
      (∃ d, (nextsN n s).currentSong = some d) ∧ (0 < n → pushed.head? = some c) := by
  intro n
  induction n with
  | zero =>
    intro s c _ hc
    exact ⟨[], by simp [nextsN], rfl, ⟨c, hc⟩, fun h => absurd h (by omega)⟩
  | succ m ih =>
    intro s c hs hc
    obtain ⟨hh, ⟨d, hd⟩, hsh⟩ := playNext_of_some s c hc
    obtain ⟨pushed, ih1, ih2, ih3, -⟩ := ih (playNext s) d (by rw [hsh]; exact hs) hd
    refine ⟨c :: pushed, ?_, by simp [ih2], ih3, fun _ => rfl⟩
    show (nextsN m (playNext s)).history = s.history ++ (c :: pushed)
    rw [ih1, hh]
    simp

lemma playPrevious_pop (ct : ℚ) (t : AppState) (d e : Song)
    (hd : t.currentSong = some d) (hct : ¬ ct > 3) (hl : t.history.getLast? = some e) :
    playPrevious ct t =
      { t with history := t.history.dropLast, currentSong := some e, isPlaying := true } := by
  unfold playPrevious
  simp only [hd]
  rw [if_neg hct]
  simp only [hl]

lemma prevsList_unwind : ∀ (cts : List ℚ) (pushed : List Song) (t : AppState)
    (h0 : List Song) (c : Song),
    cts.length = pushed.length → pushed.head? = some c → (∀ x ∈ cts, x ≤ 3) →
    (∃ d, t.currentSong = some d) → t.history = h0 ++ pushed →
    (prevsList cts t).currentSong = some c ∧ (prevsList cts t).history = h0 := by
  intro cts
  induction cts with
  | nil =>
    intro pushed t h0 c hlen hhead _ _ _
    have hnil : pushed = [] := List.length_eq_zero.mp hlen.symm
    subst hnil
    exact absurd hhead (by simp)
  | cons ct rest ih =>
    intro pushed t h0 c hlen hhead hle hcur hhist
    obtain ⟨d, hd⟩ := hcur
    rcases List.eq_nil_or_concat pushed with hnil | ⟨ini, lastE, hsplit⟩
    · subst hnil
      exact absurd hhead (by simp)
    · subst hsplit
      have hlast : t.history.getLast? = some lastE := by
        rw [hhist, List.concat_eq_append, ← List.append_assoc]
        exact List.getLast?_concat _
      have hstep : playPrevious ct t =
          { t with history := t.history.dropLast, currentSong := some lastE,
                   isPlaying := true } :=
        playPrevious_pop ct t d lastE hd
          (not_lt.mpr (hle ct (List.mem_cons_self ct rest))) hlast
      have hdrop : (playPrevious ct t).history = h0 ++ ini := by
        rw [hstep]
        show t.history.dropLast = h0 ++ ini
        rw [hhist, List.concat_eq_append, ← List.append_assoc]
        exact List.dropLast_concat
      cases ini with
      | nil =>
        have hcl : lastE = c := by
          simp only [List.concat_eq_append, List.nil_append, List.head?_cons] at hhead
          exact Option.some.inj hhead
        have hrest : rest = [] := by
          apply List.length_eq_zero.mp
          simp only [List.concat_eq_append, List.length_append, List.length_cons,
            List.length_nil] at hlen
          omega
        subst hrest
        show (playPrevious ct t).currentSong = some c ∧ (playPrevious ct t).history = h0
        constructor
        · rw [hstep]
          show some lastE = some c
          rw [hcl]
        · rw [hdrop, List.append_nil]
      | cons i0 ini2 =>
        have hci : i0 = c := by
          simp only [List.concat_eq_append, List.cons_append, List.head?_cons] at hhead
          exact Option.some.inj hhead
        subst hci
        show (prevsList rest (playPrevious ct t)).currentSong = some i0 ∧
          (prevsList rest (playPrevious ct t)).history = h0
        apply ih (i0 :: ini2) (playPrevious ct t) h0 i0
        · simp only [List.concat_eq_append, List.length_append, List.length_cons,
            List.length_nil] at hlen ⊢
          omega
        · rfl
        · intro x hx
          exact hle x (List.mem_cons_of_mem ct hx)
        · refine ⟨lastE, ?_⟩
          rw [hstep]
        · exact hdrop

/-- Claim C7 (amended): from any non-shuffled state that has a current track,
`n` calls of `playNext` followed by `n` calls of `playPrevious`, each made
with elapsed time at most 3 seconds, return the current track to its original
value (the history at each `playPrevious` step is automatically non-empty). -/
theorem playNext_playPrevious_roundtrip (n : Nat) (s : AppState) (c : Song) (cts : List ℚ)
    (hs : s.isShuffled = false) (hc : s.currentSong = some c)
    (hlen : cts.length = n) (hle : ∀ x ∈ cts, x ≤ 3) :
    (prevsList cts (nextsN n s)).currentSong = some c := by
  cases n with
  | zero =>
    have hnil : cts = [] := List.length_eq_zero.mp hlen
    subst hnil
    show s.currentSong = some c
    exact hc
  | succ m =>
    obtain ⟨pushed, hh, hlenp, hsome, hhead⟩ := nextsN_spec (m + 1) s c hs hc
    exact (prevsList_unwind cts pushed (nextsN (m + 1) s) s.history c
      (by omega) (hhead (Nat.succ_pos m)) hle hsome hh).1

/-- Claim C7 counterexample: the non-shuffled state with no current track,
history `[songH]` and library `[songX]` satisfies the claim's per-step
hypotheses for `n = 1` (elapsed time 0 ≤ 3, history non-empty at the
`playPrevious` step), yet one `playNext` followed by one `playPrevious` ends
with current track `songH`, not the original `none`. -/
theorem roundtrip_c7_counterexample :
    exC7.isShuffled = false ∧ exC7.currentSong = none ∧
      (nextsN 1 exC7).history ≠ [] ∧ ((0 : ℚ) ≤ 3) ∧
      (prevsList [0] (nextsN 1 exC7)).currentSong = some songH ∧
      (prevsList [0] (nextsN 1 exC7)).currentSong ≠ exC7.currentSong := by
  refine ⟨rfl, rfl, ?_, ?_, ?_, ?_⟩ <;> decide

/-- Witness for C7 (amended) with `n = 1` at a concrete state. -/
theorem playNext_playPrevious_roundtrip_witness :
    (prevsList [1] (nextsN 1 wState7)).currentSong = some songX :=
  playNext_playPrevious_roundtrip 1 wState7 songX [1] rfl rfl rfl (by decide)
